/-
Verification of the data-quality-pf job scheduling / pipeline specification
against the repository's code.

The repository ships the TypeScript frontend (src/frontend) and design
documentation; the Python backend core (Scheduler, Job Store, Reference
Registry, Concurrency Limiter, Pipeline Executor, Recovery Scanner) is not
part of the source tree.  Frontend behaviour is embedded directly from the
TypeScript; backend behaviour is modelled from the specification, with each
such definition marked `Modelled from the spec:`.
-/
import Mathlib

namespace DataQualityPF

/-! ## Job status values (src/unnamed/part_006, `Job` interface, lines 1-17)

The TypeScript `Job.status` field is the string union
`'uploaded' | 'pending' | 'queued' | 'processing' | 'processing_uc1' |
 'processing_uc4' | 'analyzing_completeness' | 'analysis_complete' |
 'detecting_duplicates' | 'cleaning_file' | 'cleaning_complete' |
 'completed' | 'failed' | 'analysis_complete_with_warnings' |
 'cleaning_failed'`. -/

def jobStatusValues : List String :=
  ["uploaded", "pending", "queued", "processing", "processing_uc1",
   "processing_uc4", "analyzing_completeness", "analysis_complete",
   "detecting_duplicates", "cleaning_file", "cleaning_complete",
   "completed", "failed", "analysis_complete_with_warnings",
   "cleaning_failed"]

/-- A string is representable as a `Job.status` value exactly when it is one
of the members of the TypeScript union type. -/
def jobStatusValid (s : String) : Bool :=
  jobStatusValues.contains s

/-- The icon classes produced by `getStatusIcon`
(src/frontend/components/JobList.tsx lines 135-160). -/
inductive StatusIcon where
  | clockGray
  | clockYellow
  | clockBluePulse
  | checkGreen
  | xRed
  | warnYellow
  deriving DecidableEq, Repr

/-- Embedding of `getStatusIcon` (src/frontend/components/JobList.tsx,
lines 135-160). -/
def getStatusIcon (status : String) : StatusIcon :=
  if status = "uploaded" then .clockGray
  else if status = "pending" then .clockYellow
  else if status = "processing" ∨ status = "processing_uc1" ∨
      status = "processing_uc4" ∨ status = "analyzing_completeness" ∨
      status = "detecting_duplicates" ∨ status = "cleaning_file" then
    .clockBluePulse
  else if status = "completed" ∨ status = "analysis_complete" ∨
      status = "cleaning_complete" then .checkGreen
  else if status = "failed" ∨ status = "cleaning_failed" then .xRed
  else if status = "analysis_complete_with_warnings" then .warnYellow
  else .clockGray

/-- Follows the spec's words (claim C3 / spec section 4.3 and section 9):
the claimed status space is exactly `queued`, `running[i]`, `completed`,
`completed_with_warnings` and `failed`; a `running[i]` value is rendered as
a string beginning with the eight characters `running[`.  This definition
exists only to be compared with `jobStatusValid`, which is taken from the
code. -/
def specClaimedStatusForm (s : String) : Bool :=
  s == "queued" || s == "completed" || s == "completed_with_warnings" ||
    s == "failed" || s.data.take 8 == "running[".data

/-! ## Preview-modal resize (src/frontend/components/FileUpload.tsx,
`handleResizeMove`, lines 377-387)

```
const deltaX = e.clientX - resizeStartPos.x;
const deltaY = e.clientY - resizeStartPos.y;
const newWidth = Math.max(400, Math.min(window.innerWidth - 100, resizeStartSize.width + deltaX));
const newHeight = Math.max(300, Math.min(window.innerHeight - 100, resizeStartSize.height + deltaY));
setModalSize({ width: newWidth, height: newHeight });
```
Coordinates are modelled as integers. -/

structure ModalSize where
  width : Int
  height : Int
  deriving DecidableEq, Repr

/-- One mousemove event together with the window dimensions in effect when
it is handled. -/
structure MouseEvt where
  clientX : Int
  clientY : Int
  innerWidth : Int
  innerHeight : Int
  deriving DecidableEq, Repr

structure ResizePos where
  x : Int
  y : Int
  deriving DecidableEq, Repr

/-- Embedding of `handleResizeMove`: `resizeStartSize` and `resizeStartPos`
are the size and mouse position captured at `handleResizeStart`; the new
modal size depends only on them and on the incoming event. -/
def handleResizeMove (resizeStartSize : ModalSize) (resizeStartPos : ResizePos)
    (e : MouseEvt) : ModalSize :=
  { width := max 400 (min (e.innerWidth - 100)
      (resizeStartSize.width + (e.clientX - resizeStartPos.x))),
    height := max 300 (min (e.innerHeight - 100)
      (resizeStartSize.height + (e.clientY - resizeStartPos.y))) }

/-- The modal size after a sequence of resize-move events of one resize
session has been applied (each event overwrites the size via
`setModalSize`). -/
def applyResizeMoves (resizeStartSize : ModalSize) (resizeStartPos : ResizePos)
    (cur : ModalSize) (evs : List MouseEvt) : ModalSize :=
  evs.foldl (fun _ e => handleResizeMove resizeStartSize resizeStartPos e) cur

/-! ## Preview statistics (src/unnamed/part_001, `FilePreviewModal`,
`previewStats` useMemo, lines 30-90)

```
const vals = sampleRows.map((r) => (r[colIdx] ?? '').toString());
const missing = vals.filter((v) => v === '' || v === '-' || v === null).length;
const numericVals = vals
  .map((v) => {
    const cleaned = String(v).replace(/[,\s]+/g, '');
    const n = Number(cleaned);
    return Number.isFinite(n) ? n : null;
  })
  .filter((n) => n !== null);
const numericCount = numericVals.length;
const type = numericCount === 0 ? 'string'
  : numericCount / Math.max(1, vals.length) > 0.6 ? 'numeric' : 'mixed';
```

Notes on the embedding:
* `vals` are always strings, so the `v === null` arm of the missing filter
  never fires; it is dropped.
* The floating point values `mean`, `std`, `min`, `max` are display-only
  and are not modelled.
* `Number(cleaned)` is modelled by `jsNumFinite`, a predicate for
  "`Number` yields a finite value" on strings that contain no whitespace
  and no comma (the regex has already removed those).  Float overflow of
  astronomically long numerals to `Infinity` is not modelled.
* The float comparison `numericCount / Math.max(1, vals.length) > 0.6` is
  modelled exactly over the rationals as `5 * numericCount > 3 * max 1 len`;
  rounding of the division at the 0.6 boundary is not modelled.  The claims
  depend only on the exact `numericCount === 0` branch. -/

/-- JS `\s` character class, restricted to the ASCII range that can occur
in the data. -/
def isJsSpace (c : Char) : Bool :=
  c == ' ' || c == '\t' || c == '\n' || c == '\r' ||
    c == '\x0b' || c == '\x0c'

/-- `String(v).replace(/[,\s]+/g, '')`: delete every comma and whitespace
character. -/
def cleanNum (v : String) : String :=
  ⟨v.data.filter (fun c => !(c == ',' || isJsSpace c))⟩

def isDecDigit (c : Char) : Bool := '0' ≤ c && c ≤ '9'

def isHexDigit (c : Char) : Bool :=
  isDecDigit c || ('a' ≤ c && c ≤ 'f') || ('A' ≤ c && c ≤ 'F')

def isOctDigit (c : Char) : Bool := '0' ≤ c && c ≤ '7'

def isBinDigit (c : Char) : Bool := c == '0' || c == '1'

/-- Optional sign followed by a non-empty digit string (an exponent body). -/
def signedDigits : List Char → Bool
  | [] => false
  | c :: r =>
    if c == '+' || c == '-' then !r.isEmpty && r.all isDecDigit
    else (c :: r).all isDecDigit

/-- Optional exponent suffix of a JS decimal literal. -/
def expSuffix : List Char → Bool
  | [] => true
  | c :: r => (c == 'e' || c == 'E') && signedDigits r

/-- JS decimal mantissa with optional fraction and exponent:
`digits [. digits] [exp]`, `digits. [exp]` or `.digits [exp]`. -/
def decMantissa (cs : List Char) : Bool :=
  let ip := cs.takeWhile isDecDigit
  let rest := cs.dropWhile isDecDigit
  match rest with
  | '.' :: r2 =>
    let fp := r2.takeWhile isDecDigit
    let r3 := r2.dropWhile isDecDigit
    (!ip.isEmpty || !fp.isEmpty) && expSuffix r3
  | _ => !ip.isEmpty && expSuffix rest

/-- Unsigned JS numeric string body: decimal mantissa or a `0x`/`0o`/`0b`
radix literal. -/
def radixOrDec (cs : List Char) : Bool :=
  match cs with
  | '0' :: x :: r =>
    if x == 'x' || x == 'X' then !r.isEmpty && r.all isHexDigit
    else if x == 'o' || x == 'O' then !r.isEmpty && r.all isOctDigit
    else if x == 'b' || x == 'B' then !r.isEmpty && r.all isBinDigit
    else decMantissa cs
  | _ => decMantissa cs

/-- `Number.isFinite(Number(s))` for a string `s` that contains no
whitespace and no comma.  `Number('')` is `0`, hence finite; `Infinity`
(optionally signed) is not finite; a sign is not permitted on radix
literals. -/
def jsNumFinite (s : String) : Bool :=
  match s.data with
  | [] => true
  | c :: r =>
    if c == '+' || c == '-' then
      if r = "Infinity".data then false else decMantissa r
    else
      if c :: r = "Infinity".data then false else radixOrDec (c :: r)

/-- The `previewData` prop of `FilePreviewModal`. -/
structure PreviewData where
  headers : List String
  rows : List (List String)
  totalRows : Nat
  deriving DecidableEq, Repr

/-- `(r[colIdx] ?? '').toString()`: out-of-range access yields the empty
string. -/
def cellAt (r : List String) (colIdx : Nat) : String :=
  r.getD colIdx ""

/-- `v === '' || v === '-'` (the `v === null` arm never fires on strings). -/
def isMissingCell (v : String) : Bool :=
  v == "" || v == "-"

/-- The `type` classification of one column. -/
inductive ColType where
  | stringT
  | numericT
  | mixedT
  deriving DecidableEq, Repr, Inhabited

/-- One element of `columnSummaries` (floating point summary fields
omitted, see the module comment). -/
structure ColSummary where
  header : String
  missing : Nat
  numericCount : Nat
  type : ColType
  deriving DecidableEq, Repr, Inhabited

/-- The summary computed for column `colIdx` with header `h` over the
sample rows. -/
def mkColSummary (rows : List (List String)) (h : String) (colIdx : Nat) :
    ColSummary :=
  let vals := rows.map (fun r => cellAt r colIdx)
  let missing := (vals.filter isMissingCell).length
  let numericCount := (vals.filter (fun v => jsNumFinite (cleanNum v))).length
  { header := h
    missing := missing
    numericCount := numericCount
    type :=
      if numericCount = 0 then .stringT
      else if 5 * numericCount > 3 * max 1 vals.length then .numericT
      else .mixedT }

/-- The value of the `previewStats` useMemo for a non-null `previewData`
(`sampleRows` is `rows`). -/
structure PreviewStats where
  totalRows : Nat
  sampleRows : Nat
  columns : Nat
  numericColumns : Nat
  totalMissing : Nat
  columnSummaries : List ColSummary
  deriving DecidableEq, Repr

def previewStats (d : PreviewData) : PreviewStats :=
  let columnSummaries :=
    d.headers.enum.map (fun p => mkColSummary d.rows p.2 p.1)
  { totalRows := d.totalRows
    sampleRows := d.rows.length
    columns := d.headers.length
    numericColumns :=
      (columnSummaries.filter (fun c => c.type = ColType.numericT)).length
    totalMissing := columnSummaries.foldl (fun s c => s + c.missing) 0
    columnSummaries := columnSummaries }

/-! ## Scheduling core, modelled from the spec

The backend core is not part of the source tree (src/ holds the TypeScript
frontend plus design documents such as src/unnamed/part_006, which cites
`MAX_CONCURRENT_JOBS = 5`, `job_semaphore = asyncio.Semaphore(...)` and the
recovery endpoints).  Every definition in this section is therefore marked
`Modelled from the spec:` and follows spec.md sections 3-7. -/

/-- Modelled from the spec: the default capacity of the Concurrency
Limiter (spec section 4.4; src/unnamed/part_006 lines 109-126 cite
`MAX_CONCURRENT_JOBS = 5`). -/
def MAX_CONCURRENT_JOBS : Nat := 5

/-- Modelled from the spec: the closed job state machine of spec
section 4.3, `queued → running[i] → completed | completed_with_warnings |
failed`. -/
inductive SpecStatus where
  | queued
  | running (i : Nat)
  | completed
  | completedWithWarnings
  | failed
  deriving DecidableEq, Repr

/-- Terminal statuses (spec glossary): `completed`,
`completed_with_warnings`, `failed`. -/
def SpecStatus.isTerminal : SpecStatus → Bool
  | .completed => true
  | .completedWithWarnings => true
  | .failed => true
  | _ => false

/-- `running[i]` for some stage index `i`. -/
def SpecStatus.isRunning : SpecStatus → Bool
  | .running _ => true
  | _ => false

/-- Modelled from the spec: the Job record of spec section 3 (the fields
the claims are about). -/
structure CoreJob where
  id : Nat
  input_path : String
  nStages : Nat
  status : SpecStatus
  completedAt : Option Nat
  error : Option String
  deriving DecidableEq, Repr

/-- Modelled from the spec: the Recovery Scanner's action on one job (spec
section 4.6): a job in a non-terminal `running[i]` status is transitioned
to `failed` with the "interrupted" error category, or with the more
specific "missing file" category when its input file no longer exists;
every other job is untouched.  `fx` is the file-existence check and `t`
the scan time. -/
def recoverJob (fx : String → Bool) (t : Nat) (j : CoreJob) : CoreJob :=
  match j.status with
  | .running _ =>
    { j with
      status := .failed
      completedAt := some t
      error := some (if fx j.input_path then
        "interrupted: no active worker for in-flight job"
        else "missing file") }
  | _ => j

/-- Modelled from the spec: `recover()` applied to the whole store. -/
def recoverState (fx : String → Bool) (t : Nat) (js : List CoreJob) :
    List CoreJob :=
  js.map (recoverJob fx t)

/-- The ids `recover()` would report: the jobs found in a `running[i]`
status. -/
def recoverIds (js : List CoreJob) : List Nat :=
  (js.filter (fun j => j.status.isRunning)).map (fun j => j.id)

/-- The ids of the jobs whose status is `failed`. -/
def failedIds (js : List CoreJob) : List Nat :=
  (js.filter (fun j => j.status = SpecStatus.failed)).map (fun j => j.id)

/-- Modelled from the spec: one row of the Reference Registry (spec
section 3, `ReferenceFile`; the schema in src/unnamed/part_009 lines
492-502 has `uc_type`, `file_path`, `uploaded_at`, `is_active`). -/
structure RefRow where
  id : Nat
  uc_type : String
  file_path : String
  uploaded_at : Nat
  is_active : Bool
  deriving DecidableEq, Repr

/-- Modelled from the spec: `get_active(uc_type)` returns the active row
for the stage type, if any. -/
def getActive (reg : List RefRow) (uc : String) : Option RefRow :=
  reg.find? (fun r => r.uc_type == uc && r.is_active)

/-- Deactivate every row of the given stage type (rows are kept, only
`is_active` is cleared). -/
def deactivateUC (uc : String) (reg : List RefRow) : List RefRow :=
  reg.map (fun r =>
    if r.uc_type == uc then { r with is_active := false } else r)

/-- Modelled from the spec: `set_active(uc_type, path)` (spec section 4.2)
deactivates the prior active row, if any, and appends a new active row in
one atomic step; no row is ever deleted. -/
def setActive (uc path : String) (t newId : Nat) (reg : List RefRow) :
    List RefRow :=
  deactivateUC uc reg ++
    [{ id := newId, uc_type := uc, file_path := path,
       uploaded_at := t, is_active := true }]

/-- Modelled from the spec: the registry's mutating operations.
`del` is the soft delete of the `DELETE /upload/reference-file` endpoint
(src/unnamed/part_007 lines 72-75: files are deactivated, never
deleted). -/
inductive RegOp where
  | set (uc path : String) (t newId : Nat)
  | del (uc : String)
  deriving DecidableEq, Repr

def applyRegOp (reg : List RefRow) : RegOp → List RefRow
  | .set uc path t newId => setActive uc path t newId reg
  | .del uc => deactivateUC uc reg

/-- The registry obtained by running a sequence of operations from the
empty registry. -/
def runRegOps (ops : List RegOp) : List RefRow :=
  ops.foldl applyRegOp []

/-- Number of active rows of the given stage type. -/
def activeCount (uc : String) (reg : List RefRow) : Nat :=
  reg.countP (fun r => r.uc_type == uc && r.is_active)

/-- Modelled from the spec: `submit(input_path, stages)` (spec
section 4.5).  Validation happens before any job row is created: when some
selected stage has no active reference file the call returns a
ConfigurationError, the job store `js` is left unchanged and the
Concurrency Limiter is never touched (third component: the number of
`acquire()` calls issued).  Otherwise the job is persisted as `queued` and
one limiter acquisition is scheduled for the whole pipeline. -/
def submit (reg : List RefRow) (js : List CoreJob) (input_path : String)
    (stages : List String) (fresh : Nat) :
    Except String Nat × List CoreJob × Nat :=
  if stages.any (fun s => (getActive reg s).isNone) then
    (Except.error "ConfigurationError: missing active reference file", js, 0)
  else
    (Except.ok fresh,
     js ++ [{ id := fresh, input_path := input_path,
              nStages := stages.length, status := SpecStatus.queued,
              completedAt := none, error := none }],
     1)

/-- The client-side guard of `startBatchProcessing`
(src/frontend/components/FileUpload.tsx lines 168-215): the batch API is
called only when at least one UC is selected and every selected UC has a
reference file uploaded. -/
def startBatchApiCalled (refFiles : String → Option String)
    (selectedUCs : List String) : Bool :=
  if selectedUCs.length = 0 then false
  else if (selectedUCs.filter (fun uc => (refFiles uc).isNone)).length > 0
    then false
  else true

/-- Modelled from the spec: the outcome of one external Stage Processor
call (spec section 6): an output path, findings and a warning flag, or a
failure. -/
inductive StageOutcome where
  | ok (output : String) (findings : String) (warning : Bool)
  | err (msg : String)
  deriving DecidableEq, Repr

def StageOutcome.isOk : StageOutcome → Bool
  | .ok _ _ _ => true
  | .err _ => false

/-- Result of a pipeline run: final status, recorded error, and the stage
indices that were actually invoked, in call order. -/
structure PipeResult where
  status : SpecStatus
  error : Option String
  invoked : List Nat
  deriving DecidableEq, Repr

/-- Modelled from the spec: the Pipeline Executor (spec section 4.3) run
from stage index `i` with `k` stages remaining; `warned` records whether a
warning-level finding was seen.  Each stage is invoked exactly once, a
failure records the error, sets `failed` and stops, and the terminal
status on success is `completed` or `completed_with_warnings` according to
`warned`. -/
def runFrom (proc : Nat → StageOutcome) : Nat → Nat → Bool → PipeResult
  | 0, _, warned =>
    { status := if warned then SpecStatus.completedWithWarnings
        else SpecStatus.completed,
      error := none, invoked := [] }
  | k + 1, i, warned =>
    match proc i with
    | .ok _ _ w =>
      let r := runFrom proc k (i + 1) (warned || w)
      { r with invoked := i :: r.invoked }
    | .err m =>
      { status := SpecStatus.failed, error := some m, invoked := [i] }

/-- Modelled from the spec: a full pipeline run over `n` stages. -/
def runPipeline (proc : Nat → StageOutcome) (n : Nat) : PipeResult :=
  runFrom proc n 0 false

/-- Number of jobs currently in a `running[i]` status. -/
def runningCount (js : List CoreJob) : Nat :=
  js.countP (fun j => j.status.isRunning)

/-- Modelled from the spec: the transitions of the scheduling core over
the job store, for a fixed Concurrency Limiter capacity `C`
(spec sections 3-5).
* `submitJob`: the Scheduler persists a new job as `queued`.
* `dispatch`: the Limiter admits a queued job — only when fewer than `C`
  jobs are running; the job enters `running[0]` and holds its single slot
  for the whole pipeline.
* `advance`: the Executor moves a running job to its next stage (the slot
  is kept, not re-acquired).
* `finishOk` / `finishWarn` / `failStage`: the Executor ends the pipeline,
  releasing the slot and stamping `completed_at`.
* `deleteJob`: the external delete request removes a row.
* `recoverScan`: the Recovery Scanner fails every orphaned running job. -/
inductive Step (C : Nat) : List CoreJob → List CoreJob → Prop
  | submitJob (js : List CoreJob) (j : CoreJob) :
      j.status = SpecStatus.queued → j.completedAt = none →
      Step C js (js ++ [j])
  | dispatch (pre post : List CoreJob) (j : CoreJob) :
      j.status = SpecStatus.queued →
      runningCount (pre ++ j :: post) < C →
      Step C (pre ++ j :: post)
        (pre ++ { j with status := SpecStatus.running 0 } :: post)
  | advance (pre post : List CoreJob) (j : CoreJob) (i : Nat) :
      j.status = SpecStatus.running i → i + 1 < j.nStages →
      Step C (pre ++ j :: post)
        (pre ++ { j with status := SpecStatus.running (i + 1) } :: post)
  | finishOk (pre post : List CoreJob) (j : CoreJob) (i t : Nat) :
      j.status = SpecStatus.running i →
      Step C (pre ++ j :: post)
        (pre ++ { j with status := SpecStatus.completed,
                         completedAt := some t } :: post)
  | finishWarn (pre post : List CoreJob) (j : CoreJob) (i t : Nat) :
      j.status = SpecStatus.running i →
      Step C (pre ++ j :: post)
        (pre ++ { j with status := SpecStatus.completedWithWarnings,
                         completedAt := some t } :: post)
  | failStage (pre post : List CoreJob) (j : CoreJob) (i t : Nat)
      (m : String) :
      j.status = SpecStatus.running i →
      Step C (pre ++ j :: post)
        (pre ++ { j with status := SpecStatus.failed,
                         completedAt := some t,
                         error := some m } :: post)
  | deleteJob (pre post : List CoreJob) (j : CoreJob) :
      Step C (pre ++ j :: post) (pre ++ post)
  | recoverScan (js : List CoreJob) (fx : String → Bool) (t : Nat) :
      Step C js (recoverState fx t js)

/-- The job stores reachable from the empty store. -/
def Reachable (C : Nat) (js : List CoreJob) : Prop :=
  Relation.ReflTransGen (Step C) [] js

/-! ## Helper lemmas about the scheduling core -/

lemma isRunning_of_isTerminal {s : SpecStatus} (h : s.isTerminal = true) :
    s.isRunning = false := by
  cases s <;> simp_all [SpecStatus.isTerminal, SpecStatus.isRunning]

lemma recoverJob_of_not_running (fx : String → Bool) (t : Nat) (j : CoreJob)
    (h : j.status.isRunning = false) : recoverJob fx t j = j := by
  unfold recoverJob
  cases hs : j.status <;> simp_all [SpecStatus.isRunning]

lemma recoverJob_not_running (fx : String → Bool) (t : Nat) (j : CoreJob) :
    (recoverJob fx t j).status.isRunning = false := by
  unfold recoverJob
  cases hs : j.status <;> simp [SpecStatus.isRunning, hs]

lemma recoverJob_terminal_iff (fx : String → Bool) (t : Nat) (j : CoreJob)
    (h : j.status.isTerminal = true ↔ j.completedAt.isSome = true) :
    (recoverJob fx t j).status.isTerminal = true ↔
      (recoverJob fx t j).completedAt.isSome = true := by
  unfold recoverJob
  cases hs : j.status <;> simp_all [SpecStatus.isTerminal]

/-- The invariant maintained by every transition of the scheduling core:
the Concurrency Limiter bound and the `completed_at ⇔ terminal`
property. -/
def CoreInv (C : Nat) (js : List CoreJob) : Prop :=
  runningCount js ≤ C ∧
    ∀ j ∈ js, j.status.isTerminal = true ↔ j.completedAt.isSome = true

lemma coreInv_nil (C : Nat) : CoreInv C [] := by
  constructor
  · simp [runningCount]
  · intro j hj; cases hj

lemma runningCount_middle (pre post : List CoreJob) (j : CoreJob) :
    runningCount (pre ++ j :: post) =
      runningCount pre + (if j.status.isRunning then 1 else 0) +
        runningCount post := by
  simp [runningCount, List.countP_append, List.countP_cons]
  omega

lemma mem_middle {j x : CoreJob} {pre post : List CoreJob}
    (h : j ∈ pre ++ x :: post) : j ∈ pre ∨ j = x ∨ j ∈ post := by
  simp only [List.mem_append, List.mem_cons] at h
  tauto

lemma coreInv_step {C : Nat} {js js' : List CoreJob}
    (hinv : CoreInv C js) (hstep : Step C js js') : CoreInv C js' := by
  obtain ⟨hcount, hterm⟩ := hinv
  cases hstep with
  | submitJob js j hq hc =>
    constructor
    · simp [runningCount, List.countP_append, List.countP_cons, hq,
        SpecStatus.isRunning] at *
      omega
    · intro j' hj'
      rcases List.mem_append.mp hj' with h | h
      · exact hterm j' h
      · simp only [List.mem_singleton] at h
        subst h
        simp [hq, hc, SpecStatus.isTerminal]
  | dispatch pre post j hq hlt =>
    constructor
    · rw [runningCount_middle] at *
      simp [hq, SpecStatus.isRunning] at hlt ⊢
      omega
    · intro j' hj'
      rcases mem_middle hj' with h | h | h
      · exact hterm j' (by simp [h])
      · subst h
        have := hterm j (by simp)
        simp [hq, SpecStatus.isTerminal] at this ⊢
        simpa [hq] using this
      · exact hterm j' (by simp [h])
  | advance pre post j i hr hlt =>
    constructor
    · rw [runningCount_middle] at *
      simp [hr, SpecStatus.isRunning] at hcount ⊢
      omega
    · intro j' hj'
      rcases mem_middle hj' with h | h | h
      · exact hterm j' (by simp [h])
      · subst h
        have := hterm j (by simp)
        simp [hr, SpecStatus.isTerminal] at this ⊢
        simpa [hr] using this
      · exact hterm j' (by simp [h])
  | finishOk pre post j i t hr =>
    constructor
    · rw [runningCount_middle] at *
      simp [hr, SpecStatus.isRunning] at hcount ⊢
      omega
    · intro j' hj'
      rcases mem_middle hj' with h | h | h
      · exact hterm j' (by simp [h])
      · subst h; simp [SpecStatus.isTerminal]
      · exact hterm j' (by simp [h])
  | finishWarn pre post j i t hr =>
    constructor
    · rw [runningCount_middle] at *
      simp [hr, SpecStatus.isRunning] at hcount ⊢
      omega
    · intro j' hj'
      rcases mem_middle hj' with h | h | h
      · exact hterm j' (by simp [h])
      · subst h; simp [SpecStatus.isTerminal]
      · exact hterm j' (by simp [h])
  | failStage pre post j i t m hr =>
    constructor
    · rw [runningCount_middle] at *
      simp [hr, SpecStatus.isRunning] at hcount ⊢
      omega
    · intro j' hj'
      rcases mem_middle hj' with h | h | h
      · exact hterm j' (by simp [h])
      · subst h; simp [SpecStatus.isTerminal]
      · exact hterm j' (by simp [h])
  | deleteJob pre post j =>
    constructor
    · rw [runningCount_middle] at hcount
      simp [runningCount, List.countP_append] at hcount ⊢
      omega
    · intro j' hj'
      rcases List.mem_append.mp hj' with h | h
      · exact hterm j' (by simp [h])
      · exact hterm j' (by simp [h])
  | recoverScan js fx t =>
    constructor
    · have : runningCount (recoverState fx t js) = 0 := by
        simp only [runningCount, recoverState, List.countP_map]
        exact List.countP_eq_zero.mpr
          (fun j _ => by simp [Function.comp, recoverJob_not_running])
      omega
    · intro j' hj'
      simp only [recoverState, List.mem_map] at hj'
      obtain ⟨j, hj, rfl⟩ := hj'
      exact recoverJob_terminal_iff fx t j (hterm j hj)

lemma coreInv_reachable {C : Nat} {js : List CoreJob}
    (h : Reachable C js) : CoreInv C js := by
  induction h with
  | refl => exact coreInv_nil C
  | tail _ hstep ih => exact coreInv_step ih hstep

/-- Once `completed_at` is set, a further transition leaves the row
unchanged in the store unless the transition is the external delete that
removes a whole row (the only transition that shrinks the store). -/
lemma step_keeps_done {C : Nat} {js js' : List CoreJob}
    (hinv : CoreInv C js) (hstep : Step C js js') :
    ∀ j ∈ js, j.completedAt.isSome = true →
      j ∈ js' ∨ js.length = js'.length + 1 := by
  obtain ⟨_, hterm⟩ := hinv
  cases hstep with
  | submitJob js j hq hc =>
    intro j' hj' _
    exact Or.inl (List.mem_append_left _ hj')
  | dispatch pre post j hq hlt =>
    intro j' hj' hdone
    rcases mem_middle hj' with h | h | h
    · exact Or.inl (by simp [h])
    · subst h
      have := hterm j' (by simp)
      rw [hq] at this
      simp [SpecStatus.isTerminal] at this
      simp [this] at hdone
    · exact Or.inl (by simp [h])
  | advance pre post j i hr hlt =>
    intro j' hj' hdone
    rcases mem_middle hj' with h | h | h
    · exact Or.inl (by simp [h])
    · subst h
      have := hterm j' (by simp)
      rw [hr] at this
      simp [SpecStatus.isTerminal] at this
      simp [this] at hdone
    · exact Or.inl (by simp [h])
  | finishOk pre post j i t hr =>
    intro j' hj' hdone
    rcases mem_middle hj' with h | h | h
    · exact Or.inl (by simp [h])
    · subst h
      have := hterm j' (by simp)
      rw [hr] at this
      simp [SpecStatus.isTerminal] at this
      simp [this] at hdone
    · exact Or.inl (by simp [h])
  | finishWarn pre post j i t hr =>
    intro j' hj' hdone
    rcases mem_middle hj' with h | h | h
    · exact Or.inl (by simp [h])
    · subst h
      have := hterm j' (by simp)
      rw [hr] at this
      simp [SpecStatus.isTerminal] at this
      simp [this] at hdone
    · exact Or.inl (by simp [h])
  | failStage pre post j i t m hr =>
    intro j' hj' hdone
    rcases mem_middle hj' with h | h | h
    · exact Or.inl (by simp [h])
    · subst h
      have := hterm j' (by simp)
      rw [hr] at this
      simp [SpecStatus.isTerminal] at this
      simp [this] at hdone
    · exact Or.inl (by simp [h])
  | deleteJob pre post j =>
    intro j' hj' hdone
    refine Or.inr ?_
    simp [List.length_append]
    omega
  | recoverScan js fx t =>
    intro j' hj' hdone
    refine Or.inl ?_
    have hter : j'.status.isTerminal = true := (hterm j' hj').mpr hdone
    have heq : recoverJob fx t j' = j' :=
      recoverJob_of_not_running fx t j' (isRunning_of_isTerminal hter)
    have hm := List.mem_map_of_mem (recoverJob fx t) hj'
    rw [heq] at hm
    simpa [recoverState] using hm

/-! ## Helper lemmas about the Reference Registry -/

lemma recoverJob_idem (fx fx2 : String → Bool) (t t2 : Nat) (j : CoreJob) :
    recoverJob fx2 t2 (recoverJob fx t j) = recoverJob fx t j := by
  unfold recoverJob
  cases hs : j.status <;> simp [hs]

lemma activeCount_deactivate_self (uc : String) (reg : List RefRow) :
    activeCount uc (deactivateUC uc reg) = 0 := by
  simp only [activeCount, deactivateUC, List.countP_map]
  refine List.countP_eq_zero.mpr (fun r _ => ?_)
  by_cases h : r.uc_type == uc <;> simp [Function.comp, h]

lemma activeCount_deactivate_le (uc uc' : String) (reg : List RefRow) :
    activeCount uc (deactivateUC uc' reg) ≤ activeCount uc reg := by
  simp only [activeCount, deactivateUC, List.countP_map]
  refine List.countP_mono_left (fun r _ h => ?_)
  simp only [Function.comp] at h
  by_cases hc : r.uc_type == uc' <;> simp_all

lemma activeCount_setActive (uc uc' path : String) (t newId : Nat)
    (reg : List RefRow) (h : ∀ u, activeCount u reg ≤ 1) :
    activeCount uc (setActive uc' path t newId reg) ≤ 1 := by
  simp only [setActive, activeCount, List.countP_append]
  by_cases huc : uc = uc'
  · subst huc
    have h0 := activeCount_deactivate_self uc reg
    simp only [activeCount] at h0
    simp [h0, List.countP_cons]
  · have hle := activeCount_deactivate_le uc uc' reg
    have h1 := h uc
    have hfalse : ((uc' : String) == uc) = false :=
      beq_eq_false_iff_ne.mpr (fun hh => huc hh.symm)
    simp only [activeCount] at hle h1 ⊢
    simp [List.countP_cons, hfalse]
    omega

/-- Every registry operation keeps every existing row, preserving its
identity fields; only `is_active` may change. -/
lemma applyRegOp_keeps_rows (reg : List RefRow) (op : RegOp) (r : RefRow)
    (hr : r ∈ reg) :
    ∃ r' ∈ applyRegOp reg op, r'.id = r.id ∧ r'.uc_type = r.uc_type ∧
      r'.file_path = r.file_path ∧ r'.uploaded_at = r.uploaded_at := by
  have key : ∀ uc, ∃ r' ∈ deactivateUC uc reg, r'.id = r.id ∧
      r'.uc_type = r.uc_type ∧ r'.file_path = r.file_path ∧
      r'.uploaded_at = r.uploaded_at := by
    intro uc
    refine ⟨(fun r => if r.uc_type == uc then { r with is_active := false }
      else r) r, List.mem_map_of_mem _ hr, ?_⟩
    by_cases h : r.uc_type == uc <;> simp [h]
  cases op with
  | set uc path t newId =>
    obtain ⟨r', hr', hfields⟩ := key uc
    exact ⟨r', List.mem_append_left _ hr', hfields⟩
  | del uc => exact key uc

lemma runRegOps_activeCount (ops : List RegOp) :
    ∀ uc, activeCount uc (runRegOps ops) ≤ 1 := by
  suffices h : ∀ (ops : List RegOp) (reg : List RefRow),
      (∀ uc, activeCount uc reg ≤ 1) →
      ∀ uc, activeCount uc (ops.foldl applyRegOp reg) ≤ 1 by
    intro uc
    refine h ops [] (fun u => ?_) uc
    simp [activeCount]
  intro ops
  induction ops with
  | nil => intro reg hreg uc; simpa using hreg uc
  | cons op rest ih =>
    intro reg hreg uc
    refine ih (applyRegOp reg op) (fun u => ?_) uc
    cases op with
    | set uc' path t newId => exact activeCount_setActive u uc' path t newId reg hreg
    | del uc' =>
      calc activeCount u (deactivateUC uc' reg) ≤ activeCount u reg :=
            activeCount_deactivate_le u uc' reg
        _ ≤ 1 := hreg u

/-- `set_active` deactivates every prior row of the stage type: the old
row survives with `is_active := false`. -/
lemma setActive_deactivates (reg : List RefRow) (uc path : String)
    (t newId : Nat) (r : RefRow) (hr : r ∈ reg) (huc : r.uc_type = uc) :
    { r with is_active := false } ∈ setActive uc path t newId reg := by
  refine List.mem_append_left _ ?_
  have : (fun r => if r.uc_type == uc then { r with is_active := false }
      else r) r = { r with is_active := false } := by
    simp [huc]
  exact this ▸ List.mem_map_of_mem _ hr

/-! ## Helper lemmas about the Pipeline Executor -/

lemma runFrom_terminal (proc : Nat → StageOutcome) :
    ∀ (k i : Nat) (warned : Bool),
      (runFrom proc k i warned).status.isTerminal = true := by
  intro k
  induction k with
  | zero =>
    intro i warned
    cases warned <;> simp [runFrom, SpecStatus.isTerminal]
  | succ k ih =>
    intro i warned
    cases h : proc i with
    | ok o f w => simp [runFrom, h, ih]
    | err m => simp [runFrom, h, SpecStatus.isTerminal]

lemma runFrom_err (proc : Nat → StageOutcome) (m : String) :
    ∀ (f i k : Nat) (warned : Bool), f < k →
      (∀ j, j < f → (proc (i + j)).isOk = true) →
      proc (i + f) = StageOutcome.err m →
      runFrom proc k i warned =
        { status := SpecStatus.failed, error := some m,
          invoked := (List.range (f + 1)).map (fun x => i + x) } := by
  intro f
  induction f with
  | zero =>
    intro i k warned hk hok herr
    obtain ⟨k', rfl⟩ : ∃ k', k = k' + 1 := ⟨k - 1, by omega⟩
    simp only [Nat.add_zero] at herr
    simp [runFrom, herr, List.range_succ]
  | succ f ih =>
    intro i k warned hk hok herr
    obtain ⟨k', rfl⟩ : ∃ k', k = k' + 1 := ⟨k - 1, by omega⟩
    have h0 : (proc i).isOk = true := by
      have := hok 0 (by omega)
      simpa using this
    cases hpi : proc i with
    | err m' => rw [hpi] at h0; simp [StageOutcome.isOk] at h0
    | ok o fd w =>
      have hrec := ih (i + 1) k' (warned || w) (by omega)
        (fun j hj => by
          have := hok (j + 1) (by omega)
          simpa [Nat.add_assoc, Nat.add_comm 1 j] using this)
        (by simpa [Nat.add_assoc, Nat.add_comm 1 f] using herr)
      have hlist : i :: (List.range (f + 1)).map (fun x => i + 1 + x) =
          (List.range (f + 1 + 1)).map (fun x => i + x) := by
        conv_rhs => rw [List.range_succ_eq_map]
        simp only [List.map_cons, List.map_map, Nat.add_zero]
        congr 1
        refine List.map_congr_left (fun x _ => ?_)
        simp only [Function.comp_apply]
        omega
      simp only [runFrom, hpi, hrec, hlist]

/-! ## Demonstration states used by the witnesses -/

def jobA : CoreJob :=
  { id := 1, input_path := "a.csv", nStages := 2,
    status := SpecStatus.queued, completedAt := none, error := none }

def jobA1 : CoreJob :=
  { id := 1, input_path := "a.csv", nStages := 2,
    status := SpecStatus.running 0, completedAt := none, error := none }

def jobA2 : CoreJob :=
  { id := 1, input_path := "a.csv", nStages := 2,
    status := SpecStatus.completed, completedAt := some 10, error := none }

lemma demo_reach_queued : Reachable MAX_CONCURRENT_JOBS [jobA] :=
  Relation.ReflTransGen.tail Relation.ReflTransGen.refl
    (Step.submitJob [] jobA rfl rfl)

lemma demo_reach_running : Reachable MAX_CONCURRENT_JOBS [jobA1] :=
  Relation.ReflTransGen.tail demo_reach_queued
    (Step.dispatch [] [] jobA rfl (by decide))

lemma demo_reach_completed : Reachable MAX_CONCURRENT_JOBS [jobA2] :=
  Relation.ReflTransGen.tail demo_reach_running
    (Step.finishOk [] [] jobA1 0 10 rfl)

/-! ## Helper lemmas about the preview statistics -/

/-- The claim's independent description of a column's missing count: the
number of sample-row cells of column `i` whose string value is the empty
string or `"-"`. -/
def specMissing (rows : List (List String)) (i : Nat) : Nat :=
  (rows.map (fun r => cellAt r i)).countP (fun v => v == "" || v == "-")

lemma mkColSummary_missing (rows : List (List String)) (h : String)
    (i : Nat) : (mkColSummary rows h i).missing = specMissing rows i := by
  have hfun : isMissingCell = fun v => v == "" || v == "-" := rfl
  simp [mkColSummary, specMissing, hfun, List.countP_eq_length_filter]

lemma mkColSummary_string_iff (rows : List (List String)) (h : String)
    (i : Nat) :
    (mkColSummary rows h i).type = ColType.stringT ↔
      ∀ r ∈ rows, jsNumFinite (cleanNum (cellAt r i)) = false := by
  have htype : (mkColSummary rows h i).type =
      (if ((rows.map (fun r => cellAt r i)).filter
          (fun v => jsNumFinite (cleanNum v))).length = 0 then ColType.stringT
        else if 5 * ((rows.map (fun r => cellAt r i)).filter
            (fun v => jsNumFinite (cleanNum v))).length >
            3 * max 1 (rows.map (fun r => cellAt r i)).length then
          ColType.numericT
        else ColType.mixedT) := rfl
  have hzero : ((rows.map (fun r => cellAt r i)).filter
      (fun v => jsNumFinite (cleanNum v))).length = 0 ↔
      ∀ r ∈ rows, jsNumFinite (cleanNum (cellAt r i)) = false := by
    rw [List.length_eq_zero, List.filter_eq_nil_iff]
    constructor
    · intro hA r hr
      have := hA (cellAt r i) (List.mem_map_of_mem _ hr)
      simpa using this
    · intro hA v hv
      obtain ⟨r, hr, rfl⟩ := List.mem_map.mp hv
      simp [hA r hr]
  rw [htype]
  split_ifs with h1 h2
  · simpa using hzero.mp h1
  · constructor
    · intro hc; exact absurd hc (by decide)
    · intro hR; exact absurd (hzero.mpr hR) h1
  · constructor
    · intro hc; exact absurd hc (by decide)
    · intro hR; exact absurd (hzero.mpr hR) h1

lemma foldl_add_missing :
    ∀ (l : List ColSummary) (n : Nat),
      l.foldl (fun s c => s + c.missing) n =
        n + (l.map (fun c => c.missing)).sum := by
  intro l
  induction l with
  | nil => intro n; simp
  | cons c rest ih =>
    intro n
    simp [List.foldl_cons, ih]
    omega

lemma map_missing_enumFrom (rows : List (List String)) :
    ∀ (hdrs : List String) (k : Nat),
      ((hdrs.enumFrom k).map
          (fun p => mkColSummary rows p.2 p.1)).map (fun c => c.missing) =
        (List.range' k hdrs.length).map (fun i => specMissing rows i) := by
  intro hdrs
  induction hdrs with
  | nil => intro k; simp
  | cons h t ih =>
    intro k
    simp only [List.enumFrom_cons, List.map_cons, List.length_cons,
      List.range'_succ]
    rw [mkColSummary_missing, ih]

/-! ## Helper lemmas about the resize handler -/

lemma handleResizeMove_bounds (ss : ModalSize) (sp : ResizePos)
    (e : MouseEvt) :
    400 ≤ (handleResizeMove ss sp e).width ∧
    300 ≤ (handleResizeMove ss sp e).height ∧
    (500 ≤ e.innerWidth →
      (handleResizeMove ss sp e).width ≤ e.innerWidth - 100) ∧
    (400 ≤ e.innerHeight →
      (handleResizeMove ss sp e).height ≤ e.innerHeight - 100) := by
  unfold handleResizeMove
  refine ⟨le_max_left _ _, le_max_left _ _, ?_, ?_⟩
  · intro h
    exact max_le (by omega) (min_le_left _ _)
  · intro h
    exact max_le (by omega) (min_le_left _ _)

lemma applyResizeMoves_take (ss : ModalSize) (sp : ResizePos) :
    ∀ (evs : List MouseEvt) (cur : ModalSize) (i : Nat), i < evs.length →
      applyResizeMoves ss sp cur (evs.take (i + 1)) =
        handleResizeMove ss sp (evs.getD i ⟨0, 0, 0, 0⟩) := by
  intro evs
  induction evs with
  | nil => intro cur i hi; cases hi
  | cons e rest ih =>
    intro cur i hi
    cases i with
    | zero => simp [applyResizeMoves]
    | succ i =>
      have hi' : i < rest.length := by simpa using hi
      simpa [applyResizeMoves, List.take_succ_cons] using
        ih (handleResizeMove ss sp e) i hi'

lemma columnSummaries_getD (d : PreviewData) (i : Nat)
    (h : i < d.headers.length) :
    (previewStats d).columnSummaries.getD i default =
      mkColSummary d.rows (d.headers.getD i "") i := by
  simp [previewStats, List.getD_eq_getElem?_getD, List.getElem?_map,
    List.getElem?_enum, List.getElem?_eq_getElem h]

lemma previewStats_totalMissing (d : PreviewData) :
    (previewStats d).totalMissing =
      ((List.range d.headers.length).map (fun i => specMissing d.rows i)).sum := by
  have henum : d.headers.enum = d.headers.enumFrom 0 := rfl
  simp only [previewStats, henum]
  rw [foldl_add_missing, map_missing_enumFrom d.rows d.headers 0,
    ← List.range_eq_range']
  omega

/-! ## Claims -/

/-- C1: In every reachable state of the scheduling core with a fixed
configured concurrency limit `C`, the number of jobs whose status is
`running[i]` for some stage index `i` never exceeds `C`; the `dispatch`
transition of the model acquires the single limiter slot a job holds for
its entire multi-stage pipeline. -/
theorem c1_running_jobs_le_limit (C : Nat) (js : List CoreJob)
    (h : Reachable C js) : runningCount js ≤ C :=
  (coreInv_reachable h).1

theorem c1_running_jobs_le_limit_witness :
    runningCount [jobA1] ≤ MAX_CONCURRENT_JOBS :=
  c1_running_jobs_le_limit MAX_CONCURRENT_JOBS [jobA1] demo_reach_running

/-- C2: When some selected stage has no active reference file, `submit`
returns a ConfigurationError synchronously, persists zero job rows and
never touches the Concurrency Limiter (zero `acquire()` calls); likewise
the frontend's `startBatchProcessing` guard never issues the batch API
call when a selected UC has no reference file. -/
theorem c2_submit_config_error :
    (∀ (reg : List RefRow) (js : List CoreJob) (input : String)
        (stages : List String) (fresh : Nat),
      (∃ s ∈ stages, getActive reg s = none) →
      submit reg js input stages fresh =
        (Except.error "ConfigurationError: missing active reference file",
          js, 0)) ∧
    (∀ (refFiles : String → Option String) (ucs : List String),
      (∃ uc ∈ ucs, refFiles uc = none) →
      startBatchApiCalled refFiles ucs = false) := by
  constructor
  · intro reg js input stages fresh hmiss
    obtain ⟨s, hs, hn⟩ := hmiss
    have hany : stages.any (fun s => (getActive reg s).isNone) = true :=
      List.any_eq_true.mpr ⟨s, hs, by simp [hn]⟩
    simp [submit, hany]
  · intro refFiles ucs hmiss
    obtain ⟨uc, hm, hn⟩ := hmiss
    unfold startBatchApiCalled
    split_ifs with h1 h2
    · rfl
    · rfl
    · exfalso
      apply h2
      have hne : ucs.filter (fun u => (refFiles u).isNone) ≠ [] :=
        List.ne_nil_of_mem (List.mem_filter.mpr ⟨hm, by simp [hn]⟩)
      have := List.length_pos.mpr hne
      omega

def demoRefReg : List RefRow :=
  [{ id := 1, uc_type := "UC1", file_path := "uc1_ref.csv",
     uploaded_at := 0, is_active := true }]

def demoRefFiles : String → Option String :=
  fun uc => if uc = "UC1" then some "uc1_ref.csv" else none

theorem c2_submit_config_error_witness :
    submit demoRefReg [] "input.csv" ["UC1", "UC4"] 7 =
      (Except.error "ConfigurationError: missing active reference file",
        [], 0) ∧
    startBatchApiCalled demoRefFiles ["UC1", "UC4"] = false :=
  ⟨c2_submit_config_error.1 demoRefReg [] "input.csv" ["UC1", "UC4"] 7
      ⟨"UC4", by decide, by decide⟩,
   c2_submit_config_error.2 demoRefFiles ["UC1", "UC4"]
      ⟨"UC4", by decide, by decide⟩⟩

/-- C3 counterexample: the claim says no status value other than `queued`,
`running[i]`, `completed`, `completed_with_warnings`, `failed` is
representable, yet `uploaded` is a member of the `Job.status` union type
of the code (src/unnamed/part_006) and is explicitly handled by
`getStatusIcon`, while matching none of the claimed forms. -/
theorem c3_status_counterexample :
    jobStatusValid "uploaded" = true ∧
    specClaimedStatusForm "uploaded" = false ∧
    getStatusIcon "uploaded" = StatusIcon.clockGray :=
  ⟨by decide, by decide, rfl⟩

/-- C3 (amended): a job's status is one of exactly the fifteen string
values of the `Job.status` union in src/unnamed/part_006; of these only
`queued`, `completed` and `failed` fall inside the claimed five-form set,
so statuses such as `uploaded` or `processing_uc1` are representable
values outside the claimed set. -/
theorem c3_status_space (s : String) (h : jobStatusValid s = true) :
    s ∈ jobStatusValues ∧
    (specClaimedStatusForm s = true ↔
      (s = "queued" ∨ s = "completed" ∨ s = "failed")) := by
  have hmem : s ∈ jobStatusValues := by
    simpa [jobStatusValid, List.contains] using h
  refine ⟨hmem, ?_⟩
  fin_cases hmem <;> simp <;> decide

theorem c3_status_space_witness :
    "processing_uc1" ∈ jobStatusValues ∧
    (specClaimedStatusForm "processing_uc1" = true ↔
      ("processing_uc1" = "queued" ∨ "processing_uc1" = "completed" ∨
        "processing_uc1" = "failed")) :=
  c3_status_space "processing_uc1" (by decide)

/-- C4: `recover()` is idempotent: a second scan leaves the store
unchanged, reports the same set of failed job ids, and jobs already in a
terminal status are untouched by either run. -/
theorem c4_recover_idempotent (fx fx2 : String → Bool) (t t2 : Nat)
    (js : List CoreJob) :
    recoverState fx2 t2 (recoverState fx t js) = recoverState fx t js ∧
    failedIds (recoverState fx2 t2 (recoverState fx t js)) =
      failedIds (recoverState fx t js) ∧
    ∀ j ∈ js, j.status.isTerminal = true → recoverJob fx t j = j := by
  have h1 : recoverState fx2 t2 (recoverState fx t js) =
      recoverState fx t js := by
    simp only [recoverState, List.map_map]
    exact List.map_congr_left (fun j _ => by
      simpa [Function.comp] using recoverJob_idem fx fx2 t t2 j)
  exact ⟨h1, by rw [h1],
    fun j _ hj => recoverJob_of_not_running fx t j (isRunning_of_isTerminal hj)⟩

theorem c4_recover_idempotent_witness :
    recoverState (fun _ => true) 11
        (recoverState (fun _ => true) 10 [jobA1, jobA2]) =
      recoverState (fun _ => true) 10 [jobA1, jobA2] ∧
    failedIds (recoverState (fun _ => true) 11
        (recoverState (fun _ => true) 10 [jobA1, jobA2])) =
      failedIds (recoverState (fun _ => true) 10 [jobA1, jobA2]) ∧
    ∀ j ∈ [jobA1, jobA2], j.status.isTerminal = true →
      recoverJob (fun _ => true) 10 j = j :=
  c4_recover_idempotent (fun _ => true) (fun _ => true) 10 11 [jobA1, jobA2]

/-- C5: Over any sequence of registry operations starting from the empty
registry, at most one row per `uc_type` is active at any time; every
operation preserves every existing row's identity fields (only
`is_active` may change), and `set_active` keeps the prior row of the
stage type, merely deactivated — history is append-only. -/
theorem c5_reference_registry (ops : List RegOp) :
    (∀ uc, activeCount uc (runRegOps ops) ≤ 1) ∧
    (∀ (reg : List RefRow) (op : RegOp) (r : RefRow), r ∈ reg →
      ∃ r' ∈ applyRegOp reg op, r'.id = r.id ∧ r'.uc_type = r.uc_type ∧
        r'.file_path = r.file_path ∧ r'.uploaded_at = r.uploaded_at) ∧
    (∀ (reg : List RefRow) (uc path : String) (t newId : Nat) (r : RefRow),
      r ∈ reg → r.uc_type = uc →
      { r with is_active := false } ∈ setActive uc path t newId reg) :=
  ⟨runRegOps_activeCount ops, applyRegOp_keeps_rows,
   fun reg uc path t newId r hr huc =>
     setActive_deactivates reg uc path t newId r hr huc⟩

theorem c5_reference_registry_witness :
    activeCount "UC1"
      (runRegOps [RegOp.set "UC1" "a.csv" 0 1,
        RegOp.set "UC1" "b.csv" 1 2]) ≤ 1 :=
  (c5_reference_registry
    [RegOp.set "UC1" "a.csv" 0 1, RegOp.set "UC1" "b.csv" 1 2]).1 "UC1"

/-- C6: When the Stage Processor first fails at stage index `f`, the job
ends `failed` with the error recorded, the invoked stages are exactly
`0..f` in order — no stage with index greater than `f` is ever invoked —
and no stage is invoked twice (the Executor never retries). -/
theorem c6_stage_failure_aborts (proc : Nat → StageOutcome) (n f : Nat)
    (m : String) (hf : f < n)
    (hok : ∀ j, j < f → (proc j).isOk = true)
    (herr : proc f = StageOutcome.err m) :
    (runPipeline proc n).status = SpecStatus.failed ∧
    (runPipeline proc n).error = some m ∧
    (runPipeline proc n).invoked = List.range (f + 1) ∧
    (∀ s ∈ (runPipeline proc n).invoked, s ≤ f) ∧
    (runPipeline proc n).invoked.Nodup := by
  have h := runFrom_err proc m f 0 n false hf
    (by simpa using hok) (by simpa using herr)
  have hrun : runPipeline proc n =
      { status := SpecStatus.failed, error := some m,
        invoked := (List.range (f + 1)).map (fun x => 0 + x) } := h
  have hinv : (runPipeline proc n).invoked = List.range (f + 1) := by
    rw [hrun]; simp
  refine ⟨by rw [hrun], by rw [hrun], hinv, ?_, ?_⟩
  · intro s hs
    rw [hinv] at hs
    have := List.mem_range.mp hs
    omega
  · rw [hinv]
    exact List.nodup_range _

def demoProc : Nat → StageOutcome := fun j =>
  if j = 0 then StageOutcome.ok "out0.csv" "findings0" false
  else StageOutcome.err "agent failure"

theorem c6_stage_failure_aborts_witness :
    (runPipeline demoProc 3).status = SpecStatus.failed ∧
    (runPipeline demoProc 3).error = some "agent failure" ∧
    (runPipeline demoProc 3).invoked = List.range 2 ∧
    (∀ s ∈ (runPipeline demoProc 3).invoked, s ≤ 1) ∧
    (runPipeline demoProc 3).invoked.Nodup :=
  c6_stage_failure_aborts demoProc 3 1 "agent failure" (by decide)
    (fun j hj => by
      have hj0 : j = 0 := by omega
      subst hj0
      rfl)
    rfl

/-- C7: In every reachable state, a job's `completed_at` is non-null
exactly when its status is terminal, and once `completed_at` is set a
further transition leaves the row unchanged unless the whole row is
removed by an external delete (the only transition that shrinks the
store) — so `completed_at` is set exactly once. -/
theorem c7_completed_at_iff_terminal (C : Nat) (js : List CoreJob)
    (h : Reachable C js) :
    (∀ j ∈ js, j.status.isTerminal = true ↔ j.completedAt.isSome = true) ∧
    (∀ js', Step C js js' → ∀ j ∈ js, j.completedAt.isSome = true →
      j ∈ js' ∨ js.length = js'.length + 1) :=
  ⟨(coreInv_reachable h).2,
   fun _ hstep => step_keeps_done (coreInv_reachable h) hstep⟩

theorem c7_completed_at_iff_terminal_witness :
    (∀ j ∈ [jobA2], j.status.isTerminal = true ↔
      j.completedAt.isSome = true) ∧
    (∀ js', Step MAX_CONCURRENT_JOBS [jobA2] js' → ∀ j ∈ [jobA2],
      j.completedAt.isSome = true →
      j ∈ js' ∨ [jobA2].length = js'.length + 1) :=
  c7_completed_at_iff_terminal MAX_CONCURRENT_JOBS [jobA2]
    demo_reach_completed

/-- C8: No job that leaves `queued` stays in `running[i]` forever: the
Pipeline Executor always returns a terminal status whatever the Stage
Processor does, and any job still found running is transitioned to the
terminal `failed` status by the Recovery Scanner on the next restart. -/
theorem c8_eventually_terminal :
    (∀ (proc : Nat → StageOutcome) (k i : Nat) (warned : Bool),
      (runFrom proc k i warned).status.isTerminal = true) ∧
    (∀ (fx : String → Bool) (t : Nat) (j : CoreJob),
      j.status.isRunning = true →
      (recoverJob fx t j).status = SpecStatus.failed ∧
      (recoverJob fx t j).status.isTerminal = true) := by
  refine ⟨fun proc k i warned => runFrom_terminal proc k i warned, ?_⟩
  intro fx t j hj
  unfold recoverJob
  cases hs : j.status <;>
    simp_all [SpecStatus.isRunning, SpecStatus.isTerminal]

theorem c8_eventually_terminal_witness :
    (runFrom demoProc 3 0 false).status.isTerminal = true ∧
    (recoverJob (fun _ => true) 5 jobA1).status = SpecStatus.failed :=
  ⟨c8_eventually_terminal.1 demoProc 3 0 false,
   (c8_eventually_terminal.2 (fun _ => true) 5 jobA1 rfl).1⟩

/-- C9: For every non-null preview dataset, each column's reported
`missing` equals the number of sample-row cells of that column whose
string value is empty or `-`; the column `type` is `string` exactly when
no sample value of the column parses to a finite number after stripping
commas and whitespace; and `totalMissing` is the sum of the per-column
missing counts. -/
theorem c9_preview_stats (d : PreviewData) :
    (∀ i, i < d.headers.length →
      ((previewStats d).columnSummaries.getD i default).missing =
        specMissing d.rows i ∧
      (((previewStats d).columnSummaries.getD i default).type =
          ColType.stringT ↔
        ∀ r ∈ d.rows, jsNumFinite (cleanNum (cellAt r i)) = false)) ∧
    (previewStats d).totalMissing =
      ((List.range d.headers.length).map
        (fun i => specMissing d.rows i)).sum := by
  refine ⟨fun i hi => ?_, previewStats_totalMissing d⟩
  rw [columnSummaries_getD d i hi]
  exact ⟨mkColSummary_missing _ _ _, mkColSummary_string_iff _ _ _⟩

def demoPreview : PreviewData :=
  { headers := ["name", "qty"],
    rows := [["alice", "1,000"], ["", "-"], ["bob", "x"]],
    totalRows := 3 }

theorem c9_preview_stats_witness :
    ((previewStats demoPreview).columnSummaries.getD 1 default).missing =
      specMissing demoPreview.rows 1 ∧
    (((previewStats demoPreview).columnSummaries.getD 1 default).type =
        ColType.stringT ↔
      ∀ r ∈ demoPreview.rows,
        jsNumFinite (cleanNum (cellAt r 1)) = false) :=
  (c9_preview_stats demoPreview).1 1 (by decide)

/-- C10: After any resize-move event of a resize session, the modal size
stays clamped: width at least 400 and, whenever the window inner width at
that event is at least 500, at most innerWidth - 100; height at least 300
and, whenever the window inner height is at least 400, at most
innerHeight - 100. -/
theorem c10_modal_size_clamped (ss : ModalSize) (sp : ResizePos)
    (cur : ModalSize) (evs : List MouseEvt) (i : Nat)
    (hi : i < evs.length) :
    400 ≤ (applyResizeMoves ss sp cur (evs.take (i + 1))).width ∧
    300 ≤ (applyResizeMoves ss sp cur (evs.take (i + 1))).height ∧
    (500 ≤ (evs.getD i ⟨0, 0, 0, 0⟩).innerWidth →
      (applyResizeMoves ss sp cur (evs.take (i + 1))).width ≤
        (evs.getD i ⟨0, 0, 0, 0⟩).innerWidth - 100) ∧
    (400 ≤ (evs.getD i ⟨0, 0, 0, 0⟩).innerHeight →
      (applyResizeMoves ss sp cur (evs.take (i + 1))).height ≤
        (evs.getD i ⟨0, 0, 0, 0⟩).innerHeight - 100) := by
  rw [applyResizeMoves_take ss sp evs cur i hi]
  exact handleResizeMove_bounds ss sp _

theorem c10_modal_size_clamped_witness :
    400 ≤ (applyResizeMoves ⟨1200, 600⟩ ⟨0, 0⟩ ⟨1200, 600⟩
      ([⟨2000, 1500, 1920, 1080⟩].take (0 + 1))).width ∧
    300 ≤ (applyResizeMoves ⟨1200, 600⟩ ⟨0, 0⟩ ⟨1200, 600⟩
      ([⟨2000, 1500, 1920, 1080⟩].take (0 + 1))).height ∧
    (500 ≤ (([⟨2000, 1500, 1920, 1080⟩] :
        List MouseEvt).getD 0 ⟨0, 0, 0, 0⟩).innerWidth →
      (applyResizeMoves ⟨1200, 600⟩ ⟨0, 0⟩ ⟨1200, 600⟩
        ([⟨2000, 1500, 1920, 1080⟩].take (0 + 1))).width ≤
        (([⟨2000, 1500, 1920, 1080⟩] :
          List MouseEvt).getD 0 ⟨0, 0, 0, 0⟩).innerWidth - 100) ∧
    (400 ≤ (([⟨2000, 1500, 1920, 1080⟩] :
        List MouseEvt).getD 0 ⟨0, 0, 0, 0⟩).innerHeight →
      (applyResizeMoves ⟨1200, 600⟩ ⟨0, 0⟩ ⟨1200, 600⟩
        ([⟨2000, 1500, 1920, 1080⟩].take (0 + 1))).height ≤
        (([⟨2000, 1500, 1920, 1080⟩] :
          List MouseEvt).getD 0 ⟨0, 0, 0, 0⟩).innerHeight - 100) :=
  c10_modal_size_clamped ⟨1200, 600⟩ ⟨0, 0⟩ ⟨1200, 600⟩
    [⟨2000, 1500, 1920, 1080⟩] 0 (by decide)

end DataQualityPF
